import Mathlib

/-!
Verification of the query-classification and match-scoring engine of the
Grad-Admission-Agent repository, shallowly embedded in Lean 4.

Queries and labels are modelled as lists of characters (Python `str`).
Python `s.lower()` is `lowerChars`, Python's substring test `a in b` is
`containsSub`, and `str.split()` (split on whitespace runs) is `splitWs`.
Numeric score arithmetic is carried out over `ℚ` (the Python code uses
float literals 0.4, 0.3, 0.15, 0.2, 0.1; the claims concern the exact
weighted-sum structure and its bounds, which we read over the rationals).
A faculty record's `last_scraped` timestamp enters scoring only through
`(datetime.utcnow() - faculty.last_scraped).days`, an integer; we embed
that integer (`days_old`) directly as the optional field.
-/

/-- Python `str.lower()` on a list of characters. -/
def lowerChars (s : List Char) : List Char := s.map Char.toLower

/-- Python's substring test `needle in hay` (on already-arbitrary strings):
some suffix of `hay` starts with `needle`. -/
def containsSub (needle hay : List Char) : Bool :=
  hay.tails.any (fun t => needle.isPrefixOf t)

/-- Whitespace characters recognised by Python `str.split()` (the ones that
can occur in this repository's keyword tables and queries). -/
def isWs (c : Char) : Bool := c = ' ' || c = '\t' || c = '\n'

/-- Accumulator for `splitWs`: `acc` holds the (reversed) word in progress. -/
def splitWsAux : List Char → List Char → List (List Char)
  | [], acc => if acc = [] then [] else [acc.reverse]
  | c :: cs, acc =>
    if isWs c then
      if acc = [] then splitWsAux cs []
      else acc.reverse :: splitWsAux cs []
    else splitWsAux cs (c :: acc)

/-- Python `str.split()`: split on runs of whitespace, dropping empty words. -/
def splitWs (s : List Char) : List (List Char) := splitWsAux s []

/-- Count, over a keyword list, how many keywords are substrings of the
query: Python `sum(1 for keyword in kws if keyword in query_lower)`. -/
def countHits (kws : List (List Char)) (hay : List Char) : Nat :=
  (kws.filter (fun k => containsSub k hay)).length

example : lowerChars "Machine Learning".data = "machine learning".data := by decide
example : containsSub "ml".data "find ml profs".data = true := by decide
example : containsSub "mit".data "find ml profs".data = false := by decide

/-- A faculty record as consumed by the scorers. `research_areas = []`
covers both Python `None` and `[]` (both falsy in `if faculty.research_areas:`).
`days_old` is the integer `(datetime.utcnow() - faculty.last_scraped).days`;
`none` means `last_scraped` is missing. -/
structure Faculty where
  research_areas : List (List Char)
  hiring_status : Option (List Char)
  hiring_probability : Option ℚ
  h_index : Option ℚ
  days_old : Option ℤ
deriving DecidableEq

/-- A program record as consumed by `_score_program_matches`. -/
structure Program where
  funding_available : Bool
  acceptance_rate : Option ℚ
deriving DecidableEq

/-- Number of candidate research areas one of whose lowercased words is a
substring of the query: Python
`sum(1 for area in research_areas if any(kw in query_lower for kw in area.lower().split()))`. -/
def areaHitCount (ql : List Char) (areas : List (List Char)) : Nat :=
  (areas.filter (fun area => (splitWs (lowerChars area)).any (fun kw => containsSub kw ql))).length

/-- `SmartFacultyAgent._score_faculty_matches` per-candidate score
(cost_effective_agents.py, the body of the `for faculty in faculty_list`
loop), translated increment by increment. -/
def ceFacultyScore (query : List Char) (f : Faculty) : ℚ :=
  let query_lower := lowerChars query
  let score : ℚ := 0
  let score := if f.research_areas ≠ [] then
      score + 0.4 * min 1 ((areaHitCount query_lower f.research_areas : ℚ) /
        ((max 1 f.research_areas.length : ℕ) : ℚ))
    else score
  let score := if f.hiring_status = some ("hiring".data) then score + 0.3
    else if f.hiring_status = some ("maybe".data) then score + 0.15
    else score
  let score := match f.hiring_probability with
    | some p => if p ≠ 0 then score + 0.2 * p else score
    | none => score
  let score := match f.days_old with
    | some d => score + 0.1 * max 0 (1 - (d : ℚ) / 30)
    | none => score
  score

/-- `FacultyAgent._calculate_match_score` (faculty_agent.py),
translated increment by increment; note the final `min(1.0, score)`. -/
def faMatchScore (query : List Char) (f : Faculty) : ℚ :=
  let query_lower := lowerChars query
  let score : ℚ := 0
  let score := if f.research_areas ≠ [] then
      score + 0.4 * min 1 ((areaHitCount query_lower f.research_areas : ℚ) /
        ((max 1 f.research_areas.length : ℕ) : ℚ))
    else score
  let score := if f.hiring_status = some ("hiring".data) then score + 0.3
    else if f.hiring_status = some ("maybe".data) then score + 0.15
    else score
  let score := match f.hiring_probability with
    | some p => if p ≠ 0 then score + 0.2 * p else score
    | none => score
  let score := match f.h_index with
    | some h => if h ≠ 0 then score + 0.1 * min 1 (h / 100) else score
    | none => score
  min 1 score

/-- `SmartProgramAgent._score_program_matches` per-candidate score
(cost_effective_agents.py): base 0.5, plus 0.3 when funding is available
and the query mentions funding, plus 0.2 when the acceptance rate is
truthy and exceeds 0.1. -/
def ceProgramScore (query : List Char) (p : Program) : ℚ :=
  let score : ℚ := 0.5
  let score := if p.funding_available = true ∧
      containsSub ("funding".data) (lowerChars query) then score + 0.3 else score
  let score := match p.acceptance_rate with
    | some r => if r ≠ 0 ∧ 0.1 < r then score + 0.2 else score
    | none => score
  score

/-- Research-area sub-score shared by both faculty scorers (40% weight). -/
def subAreas (ql : List Char) (f : Faculty) : ℚ :=
  if f.research_areas ≠ [] then
    0.4 * min 1 ((areaHitCount ql f.research_areas : ℚ) /
      ((max 1 f.research_areas.length : ℕ) : ℚ))
  else 0

/-- Hiring-status sub-score (30% weight): hiring → 0.3, maybe → 0.15, else 0. -/
def subStatus (f : Faculty) : ℚ :=
  if f.hiring_status = some ("hiring".data) then 0.3
  else if f.hiring_status = some ("maybe".data) then 0.15
  else 0

/-- Hiring-probability sub-score (20% weight); Python truthiness makes a
missing or zero probability contribute nothing. -/
def subProb (f : Faculty) : ℚ :=
  match f.hiring_probability with
  | some p => if p ≠ 0 then 0.2 * p else 0
  | none => 0

/-- Recency sub-score of the cost-effective scorer (10% weight). -/
def subRecency (f : Faculty) : ℚ :=
  match f.days_old with
  | some d => 0.1 * max 0 (1 - (d : ℚ) / 30)
  | none => 0

/-- H-index sub-score of the `FacultyAgent` scorer (10% weight); a missing
or zero h-index contributes nothing. -/
def subHIndex (f : Faculty) : ℚ :=
  match f.h_index with
  | some h => if h ≠ 0 then 0.1 * min 1 (h / 100) else 0
  | none => 0

/-- The canonical weighted sum fixed by the specification (spec section 4.3),
written from the spec's words for comparison against the code's scorers:
0.40 times the clamped overlap fraction, plus 0.30 for hiring status
`hiring` (0.15 for `maybe`, 0 otherwise), plus 0.20 times
`min(1, h_index/100)` (0 when missing), plus 0.10 times
`max(0, 1 - days_since_update/30)` (0 when missing). -/
def canonicalFacultyScore (ql : List Char) (f : Faculty) : ℚ :=
  0.4 * min 1 ((areaHitCount ql f.research_areas : ℚ) /
    ((max 1 f.research_areas.length : ℕ) : ℚ))
  + (if f.hiring_status = some ("hiring".data) then 0.3
     else if f.hiring_status = some ("maybe".data) then 0.15 else 0)
  + (match f.h_index with | some h => 0.2 * min 1 (h / 100) | none => 0)
  + (match f.days_old with | some d => 0.1 * max 0 (1 - (d : ℚ) / 30) | none => 0)

/-- The canonical program score fixed by the specification: the 0.20 term is
`acceptance_rate × 0.20` (0 when missing) and the 0.30 status term is
granted iff `funding_available` is true. -/
def canonicalProgramScore (areaFrac : ℚ) (p : Program) : ℚ :=
  0.4 * min 1 areaFrac
  + (if p.funding_available then 0.3 else 0)
  + (match p.acceptance_rate with | some r => 0.2 * r | none => 0)

/-- Insert a scored candidate into a descending-sorted list, in front of the
first element whose score is not larger. Together with `sortByScore` this
realises the behaviour Python guarantees for
`scored_matches.sort(key=lambda x: x["match_score"], reverse=True)`:
descending by score and stable (equal scores keep their original order). -/
def insertDesc (x : Faculty × ℚ) : List (Faculty × ℚ) → List (Faculty × ℚ)
  | [] => [x]
  | y :: l => if y.2 ≤ x.2 then x :: y :: l else y :: insertDesc x l

/-- Stable descending sort by score (model of Python `list.sort(...,
reverse=True)`): earlier input elements are inserted in front of
equal-scored later ones. -/
def sortByScore (l : List (Faculty × ℚ)) : List (Faculty × ℚ) :=
  l.foldr insertDesc []

/-- `SmartFacultyAgent._score_faculty_matches` at the list level: score every
candidate, then sort by score descending (stable). The Python code pairs
each faculty with its score in a result dict; we keep the pair. -/
def scoreFacultyMatches (query : List Char) (fl : List Faculty) : List (Faculty × ℚ) :=
  sortByScore (fl.map (fun f => (f, ceFacultyScore query f)))

/-- The payload `SmartFacultyAgent.search_faculty` returns: matches,
total_found, and the sources list (a `firebase_search` entry with the
retrieved count). -/
structure SearchResult where
  found_matches : List (Faculty × ℚ)
  total_found : Nat
  sources : List (List Char × Nat)
deriving DecidableEq

/-- `SmartFacultyAgent.search_faculty` (cost_effective_agents.py): the whole
body sits in a `try`; a retrieval failure (or any exception, modelled as the
`Except.error` case) is caught and yields the empty payload. On success the
scored matches are truncated with the hard-coded `[:10]`. -/
def searchFaculty (query : List Char) (retrieved : Except Unit (List Faculty)) :
    SearchResult :=
  match retrieved with
  | .error _ => ⟨[], 0, []⟩
  | .ok fl =>
    let scored := scoreFacultyMatches query fl
    ⟨scored.take 10, fl.length, [("firebase_search".data, fl.length)]⟩

/-- The research-area keyword table of
`SmartFacultyAgent._extract_search_criteria`: canonical area label paired
with its synonym list. -/
def researchKeywordTable : List (List Char × List (List Char)) :=
  [ ("machine learning".data, ["machine learning".data, "ml".data, "deep learning".data]),
    ("artificial intelligence".data, ["artificial intelligence".data, "ai".data]),
    ("computer vision".data, ["computer vision".data, "cv".data, "image processing".data]),
    ("natural language processing".data, ["nlp".data, "natural language".data]),
    ("robotics".data, ["robotics".data, "robot".data]),
    ("systems".data, ["systems".data, "distributed".data]),
    ("theory".data, ["theory".data, "algorithms".data]),
    ("security".data, ["security".data, "cryptography".data]) ]

/-- University keyword list of `_extract_search_criteria`. -/
def universityKeywords : List (List Char) :=
  ["stanford".data, "mit".data, "berkeley".data, "cmu".data, "caltech".data,
   "harvard".data, "princeton".data]

/-- The criteria dict built by `SmartFacultyAgent._extract_search_criteria`.
`research_areas = []` models the absent `research_areas` key (the Python
code only sets the key when something was found or context supplied it;
downstream `criteria.get` treats absence like emptiness). -/
structure Criteria where
  research_areas : List (List Char)
  university : Option (List Char)
  hiring_status : Option (List Char)
deriving DecidableEq

/-- `SmartFacultyAgent._extract_search_criteria` (cost_effective_agents.py):
areas whose synonym lists hit the lowercased query, the first matching
university, a `hiring` status iff one of hiring/recruiting/accepting
occurs, and caller-context research interests appended verbatim via
`criteria.setdefault('research_areas', []).extend(...)`. -/
def extractSearchCriteria (query : List Char) (ctxInterests : List (List Char)) :
    Criteria :=
  let query_lower := lowerChars query
  let research_areas := (researchKeywordTable.filter
      (fun akw => akw.2.any (fun kw => containsSub kw query_lower))).map Prod.fst
  let university := (universityKeywords.filter
      (fun u => containsSub u query_lower)).head?
  let hiring := if ["hiring".data, "recruiting".data, "accepting".data].any
      (fun w => containsSub w query_lower) then some ("hiring".data) else none
  ⟨research_areas ++ ctxInterests, university, hiring⟩

/-- `_extract_keywords` in agents.py (the fallback extractor): its
`hiring_focus` flag is literally `'hiring' in message_lower`. -/
def extractKeywordsHiringFocus (message : List Char) : Bool :=
  containsSub ("hiring".data) (lowerChars message)

/-- Faculty trigger keywords of `ChatOrchestrator._classify_query`. -/
def facultyKeywords : List (List Char) :=
  ["professor".data, "faculty".data, "advisor".data, "supervisor".data,
   "hiring".data, "recruiting".data]

/-- Program trigger keywords of `ChatOrchestrator._classify_query`. -/
def programKeywords : List (List Char) :=
  ["program".data, "degree".data, "phd".data, "masters".data,
   "requirements".data, "deadline".data]

/-- `ChatOrchestrator._classify_query` (cost_effective_agents.py): count
keyword hits for the two categories; the strictly larger count wins and
every tie — zero or not — falls through to `general_chat`. -/
def classifyQuery (query : List Char) : List Char :=
  let query_lower := lowerChars query
  let faculty_score := countHits facultyKeywords query_lower
  let program_score := countHits programKeywords query_lower
  if program_score < faculty_score then "faculty_search".data
  else if faculty_score < program_score then "program_search".data
  else "general_chat".data

/-- `ChatAgent._calculate_confidence` (chat_agent.py): 0.4 for nonempty
faculty matches, 0.4 for nonempty program matches, 0.2 for research
insights, capped at 0.95. The booleans are the Python truthiness of the
three state lists. -/
def calcConfidence (has_faculty has_programs has_insights : Bool) : ℚ :=
  let score : ℚ := 0
  let score := if has_faculty then score + 0.4 else score
  let score := if has_programs then score + 0.4 else score
  let score := if has_insights then score + 0.2 else score
  min 0.95 score

/-- The confidence score assigned by `ChatOrchestrator.process_query`:
0.0 when the surrounding `try` fails, 0.8/0.3 for a faculty or program
search depending on whether matches came back, and 0.6 for the general
chat branch. -/
def processQueryConfidence (query : List Char) (has_matches : Bool)
    (errored : Bool) : ℚ :=
  if errored then 0
  else if classifyQuery query = "faculty_search".data then
    (if has_matches then 0.8 else 0.3)
  else if classifyQuery query = "program_search".data then
    (if has_matches then 0.8 else 0.3)
  else 0.6

theorem ceFacultyScore_eq (q : List Char) (f : Faculty) :
    ceFacultyScore q f =
      subAreas (lowerChars q) f + subStatus f + subProb f + subRecency f := by
  rcases f with ⟨ra, hs, hp, hi, d⟩
  simp only [ceFacultyScore, subAreas, subStatus, subProb, subRecency]
  cases hp <;> cases d <;> simp only [] <;> split_ifs <;> ring

theorem faMatchScore_eq (q : List Char) (f : Faculty) :
    faMatchScore q f =
      min 1 (subAreas (lowerChars q) f + subStatus f + subProb f + subHIndex f) := by
  rcases f with ⟨ra, hs, hp, hi, d⟩
  simp only [faMatchScore, subAreas, subStatus, subProb, subHIndex]
  congr 1
  cases hp <;> cases hi <;> simp only [] <;> split_ifs <;> ring

theorem ceProgramScore_eq (q : List Char) (p : Program) :
    ceProgramScore q p = 0.5
      + (if p.funding_available = true ∧
           containsSub ("funding".data) (lowerChars q) then 0.3 else 0)
      + (match p.acceptance_rate with
         | some r => if r ≠ 0 ∧ 0.1 < r then 0.2 else 0
         | none => 0) := by
  rcases p with ⟨fa, ar⟩
  simp only [ceProgramScore]
  cases ar <;> simp only [] <;> split_ifs <;> ring

theorem subAreas_nonneg (ql : List Char) (f : Faculty) : 0 ≤ subAreas ql f := by
  unfold subAreas
  split_ifs <;> positivity

theorem subAreas_le (ql : List Char) (f : Faculty) : subAreas ql f ≤ 0.4 := by
  unfold subAreas
  split_ifs
  · nlinarith [min_le_left (1 : ℚ) ((areaHitCount ql f.research_areas : ℚ) /
      ((max 1 f.research_areas.length : ℕ) : ℚ))]
  · norm_num

theorem subStatus_nonneg (f : Faculty) : 0 ≤ subStatus f := by
  unfold subStatus
  split_ifs <;> norm_num

theorem subStatus_le (f : Faculty) : subStatus f ≤ 0.3 := by
  unfold subStatus
  split_ifs <;> norm_num

theorem subProb_nonneg (f : Faculty)
    (hp : ∀ x, f.hiring_probability = some x → 0 ≤ x) : 0 ≤ subProb f := by
  unfold subProb
  rcases h : f.hiring_probability with _ | x
  · norm_num
  · have := hp x h
    simp only []
    split_ifs <;> nlinarith

theorem subProb_le (f : Faculty)
    (hp : ∀ x, f.hiring_probability = some x → x ≤ 1) : subProb f ≤ 0.2 := by
  unfold subProb
  rcases h : f.hiring_probability with _ | x
  · norm_num
  · have := hp x h
    simp only []
    split_ifs <;> nlinarith

theorem subRecency_nonneg (f : Faculty) : 0 ≤ subRecency f := by
  unfold subRecency
  rcases f.days_old with _ | d
  · norm_num
  · positivity

theorem subRecency_le (f : Faculty)
    (hd : ∀ x, f.days_old = some x → 0 ≤ x) : subRecency f ≤ 0.1 := by
  unfold subRecency
  rcases h : f.days_old with _ | d
  · norm_num
  · have hd0 : (0 : ℚ) ≤ (d : ℚ) := by exact_mod_cast hd d h
    have : max 0 (1 - (d : ℚ) / 30) ≤ 1 := by
      apply max_le (by norm_num)
      nlinarith
    nlinarith

theorem subHIndex_nonneg (f : Faculty)
    (hh : ∀ x, f.h_index = some x → 0 ≤ x) : 0 ≤ subHIndex f := by
  unfold subHIndex
  rcases h : f.h_index with _ | x
  · norm_num
  · have hx := hh x h
    simp only []
    split_ifs
    · have : (0 : ℚ) ≤ min 1 (x / 100) := le_min (by norm_num) (by positivity)
      nlinarith
    · norm_num

theorem subHIndex_le (f : Faculty) : subHIndex f ≤ 0.1 := by
  unfold subHIndex
  rcases h : f.h_index with _ | x
  · norm_num
  · simp only []
    split_ifs
    · nlinarith [min_le_left (1 : ℚ) (x / 100)]
    · norm_num

theorem mem_insertDesc {x z : Faculty × ℚ} {l : List (Faculty × ℚ)}
    (h : z ∈ insertDesc x l) : z = x ∨ z ∈ l := by
  induction l with
  | nil => simpa [insertDesc] using h
  | cons y t ih =>
    simp only [insertDesc] at h
    split_ifs at h with hc
    · rcases List.mem_cons.mp h with rfl | h'
      · exact Or.inl rfl
      · exact Or.inr h'
    · rcases List.mem_cons.mp h with rfl | h'
      · exact Or.inr (List.mem_cons_self _ _)
      · rcases ih h' with rfl | h''
        · exact Or.inl rfl
        · exact Or.inr (List.mem_cons_of_mem _ h'')

theorem pairwise_insertDesc (x : Faculty × ℚ) (l : List (Faculty × ℚ))
    (h : l.Pairwise (fun a b => b.2 ≤ a.2)) :
    (insertDesc x l).Pairwise (fun a b => b.2 ≤ a.2) := by
  induction l with
  | nil => simp [insertDesc]
  | cons y t ih =>
    rcases List.pairwise_cons.mp h with ⟨hy, ht⟩
    simp only [insertDesc]
    split_ifs with hc
    · refine List.pairwise_cons.mpr ⟨?_, h⟩
      intro z hz
      rcases List.mem_cons.mp hz with rfl | hz'
      · exact hc
      · exact le_trans (hy z hz') hc
    · refine List.pairwise_cons.mpr ⟨?_, ih ht⟩
      intro z hz
      rcases mem_insertDesc hz with rfl | hz'
      · exact le_of_not_le hc
      · exact hy z hz'

theorem filter_insertDesc (c : ℚ) (x : Faculty × ℚ) (l : List (Faculty × ℚ)) :
    (insertDesc x l).filter (fun z => decide (z.2 = c)) =
      if x.2 = c then x :: l.filter (fun z => decide (z.2 = c))
      else l.filter (fun z => decide (z.2 = c)) := by
  induction l with
  | nil => by_cases hx : x.2 = c <;> simp [insertDesc, List.filter_cons, hx]
  | cons y t ih =>
    by_cases hc : y.2 ≤ x.2
    · simp only [insertDesc, if_pos hc, List.filter_cons]
      by_cases hx : x.2 = c <;> by_cases hy : y.2 = c <;> simp [hx, hy]
    · simp only [insertDesc, if_neg hc, List.filter_cons, ih]
      by_cases hx : x.2 = c
      · have hy : ¬ y.2 = c := fun hyc => hc (le_of_eq (hyc.trans hx.symm))
        simp [hx, hy]
      · by_cases hy : y.2 = c <;> simp [hx, hy]

theorem sortByScore_pairwise (l : List (Faculty × ℚ)) :
    (sortByScore l).Pairwise (fun a b => b.2 ≤ a.2) := by
  induction l with
  | nil => simp [sortByScore]
  | cons x t ih => exact pairwise_insertDesc x _ ih

theorem sortByScore_filter (c : ℚ) (l : List (Faculty × ℚ)) :
    (sortByScore l).filter (fun z => decide (z.2 = c)) =
      l.filter (fun z => decide (z.2 = c)) := by
  induction l with
  | nil => rfl
  | cons x t ih =>
    show (insertDesc x (sortByScore t)).filter _ = _
    rw [filter_insertDesc, ih, List.filter_cons]
    by_cases hx : x.2 = c <;> simp [hx]

theorem length_insertDesc (x : Faculty × ℚ) (l : List (Faculty × ℚ)) :
    (insertDesc x l).length = l.length + 1 := by
  induction l with
  | nil => rfl
  | cons y t ih =>
    simp only [insertDesc]
    split_ifs <;> simp [ih]

theorem length_sortByScore (l : List (Faculty × ℚ)) :
    (sortByScore l).length = l.length := by
  induction l with
  | nil => rfl
  | cons x t ih =>
    show (insertDesc x (sortByScore t)).length = t.length + 1
    rw [length_insertDesc, ih]

/-- Claim C1, counterexample: for a faculty record whose only scoring-relevant
field is `h_index = 100`, the canonical weighted sum of the specification
gives 0.20, while `FacultyAgent._calculate_match_score` gives 0.10 (its
h-index weight is 0.10, not 0.20) and the cost-effective scorer gives 0
(it has no h-index term at all, using `hiring_probability` for its 0.20
term instead); and for a program with `funding_available = false` and
`acceptance_rate = 1/2` the canonical program sum gives 0.10 for the
quality term while the code's program scorer gives 0.5 + 0.2 = 0.7. -/
theorem c1_counterexample :
    faMatchScore [] ⟨[], none, none, some 100, none⟩ ≠
      canonicalFacultyScore [] ⟨[], none, none, some 100, none⟩ ∧
    ceFacultyScore [] ⟨[], none, none, some 100, none⟩ ≠
      canonicalFacultyScore [] ⟨[], none, none, some 100, none⟩ ∧
    ceProgramScore [] ⟨false, some (1 / 2)⟩ ≠
      canonicalProgramScore 0 ⟨false, some (1 / 2)⟩ := by
  have h1 : faMatchScore [] ⟨[], none, none, some 100, none⟩ = 1 / 10 := by
    simp [faMatchScore, areaHitCount]; norm_num
  have h2 : canonicalFacultyScore [] ⟨[], none, none, some 100, none⟩ = 1 / 5 := by
    simp [canonicalFacultyScore, areaHitCount]; norm_num
  have h3 : ceFacultyScore [] ⟨[], none, none, some 100, none⟩ = 0 := by
    simp [ceFacultyScore]
  have h4 : ceProgramScore [] ⟨false, some (1 / 2)⟩ = 7 / 10 := by
    simp [ceProgramScore]
    norm_num
  have h5 : canonicalProgramScore 0 ⟨false, some (1 / 2)⟩ = 1 / 10 := by
    simp [canonicalProgramScore]
    norm_num
  rw [h1, h2, h3, h4, h5]
  norm_num

/-- Claim C1 as amended: the scorers do not compute the canonical weighted
sum; instead, for every faculty candidate the cost-effective scorer returns
0.40·overlap + (0.30 hiring / 0.15 maybe) + 0.20·hiring_probability +
0.10·recency (no h-index term), the `FacultyAgent` scorer returns
min(1, 0.40·overlap + status + 0.20·hiring_probability +
0.10·min(1, h_index/100)) (no recency term), and for every program
candidate the score is 0.5 + 0.3·[funding_available ∧ query mentions
funding] + 0.2·[acceptance_rate > 0.1], not the canonical program sum. -/
theorem c1_amended_scorer_formulas (q : List Char) (f : Faculty) (p : Program) :
    ceFacultyScore q f =
      subAreas (lowerChars q) f + subStatus f + subProb f + subRecency f ∧
    faMatchScore q f =
      min 1 (subAreas (lowerChars q) f + subStatus f + subProb f + subHIndex f) ∧
    ceProgramScore q p = 0.5
      + (if p.funding_available = true ∧
           containsSub ("funding".data) (lowerChars q) then 0.3 else 0)
      + (match p.acceptance_rate with
         | some r => if r ≠ 0 ∧ 0.1 < r then 0.2 else 0
         | none => 0) :=
  ⟨ceFacultyScore_eq q f, faMatchScore_eq q f, ceProgramScore_eq q p⟩

/-- Claim C3, counterexample: scores are not clamped to [0,1]. A malformed
candidate with `hiring_probability = 2` scores 6/5 > 1 under the
cost-effective scorer (which has no final clamp at all), and that score is
exactly what `_score_faculty_matches` emits for it. -/
theorem c3_counterexample :
    1 < ceFacultyScore ("ml".data)
        ⟨[['m', 'l']], some ("hiring".data), some 2, none, some 0⟩ ∧
    (scoreFacultyMatches ("ml".data)
        [⟨[['m', 'l']], some ("hiring".data), some 2, none, some 0⟩]).map
      Prod.snd = [6 / 5] := by
  have ha : areaHitCount (lowerChars ("ml".data)) [['m', 'l']] = 1 := by decide
  have hs : ceFacultyScore ("ml".data)
      ⟨[['m', 'l']], some ("hiring".data), some 2, none, some 0⟩ = 6 / 5 := by
    simp [ceFacultyScore, ha]
    norm_num
  refine ⟨by rw [hs]; norm_num, ?_⟩
  simp [scoreFacultyMatches, sortByScore, insertDesc, hs]

/-- Claim C3 as amended: for candidates whose optional fields are well-formed
(`hiring_probability` in [0,1] when present, nonnegative `days_old` and
`h_index` when present) both faculty scorers stay within [0.0, 1.0]; the
defensive clamp claimed by the spec does not exist (the `FacultyAgent`
variant clamps only from above with `min(1.0, score)`, the cost-effective
variant not at all), so malformed fields can push scores outside. -/
theorem c3_amended_bounds (q : List Char) (f : Faculty)
    (hp : ∀ x, f.hiring_probability = some x → 0 ≤ x ∧ x ≤ 1)
    (hd : ∀ x, f.days_old = some x → 0 ≤ x)
    (hh : ∀ x, f.h_index = some x → 0 ≤ x) :
    (0 ≤ ceFacultyScore q f ∧ ceFacultyScore q f ≤ 1) ∧
    (0 ≤ faMatchScore q f ∧ faMatchScore q f ≤ 1) := by
  have e1 := ceFacultyScore_eq q f
  have e2 := faMatchScore_eq q f
  have a1 := subAreas_nonneg (lowerChars q) f
  have a2 := subAreas_le (lowerChars q) f
  have s1 := subStatus_nonneg f
  have s2 := subStatus_le f
  have p1 := subProb_nonneg f (fun x h => (hp x h).1)
  have p2 := subProb_le f (fun x h => (hp x h).2)
  have r1 := subRecency_nonneg f
  have r2 := subRecency_le f hd
  have i1 := subHIndex_nonneg f hh
  have i2 := subHIndex_le f
  refine ⟨⟨?_, ?_⟩, ?_, ?_⟩
  · rw [e1]; nlinarith
  · rw [e1]; nlinarith
  · rw [e2]
    exact le_min (by norm_num) (by nlinarith)
  · rw [e2]
    exact min_le_left _ _

/-- Witness for the amended C3 bounds at a concrete well-formed candidate. -/
theorem c3_amended_bounds_witness :
    (0 ≤ ceFacultyScore []
        (⟨[], some ("hiring".data), some (1 / 2), some 50, some 5⟩ : Faculty) ∧
     ceFacultyScore []
        (⟨[], some ("hiring".data), some (1 / 2), some 50, some 5⟩ : Faculty) ≤ 1) ∧
    (0 ≤ faMatchScore []
        (⟨[], some ("hiring".data), some (1 / 2), some 50, some 5⟩ : Faculty) ∧
     faMatchScore []
        (⟨[], some ("hiring".data), some (1 / 2), some 50, some 5⟩ : Faculty) ≤ 1) :=
  c3_amended_bounds [] _
    (by intro x hx; injection hx with h; subst h; norm_num)
    (by intro x hx; injection hx with h; subst h; norm_num)
    (by intro x hx; injection hx with h; subst h; norm_num)

/-- Claim C4: a candidate missing its timestamp never strictly outscores an
otherwise-identical candidate that has one: the missing timestamp
contributes exactly 0 and a present timestamp contributes at least 0
(0.10 · max(0, 1 − days_old/30)) under the cost-effective scorer. -/
theorem c4_missing_timestamp_never_outscores (q : List Char)
    (ra : List (List Char)) (hs : Option (List Char)) (hp : Option ℚ)
    (hi : Option ℚ) (d : ℤ) :
    ceFacultyScore q ⟨ra, hs, hp, hi, none⟩ ≤
      ceFacultyScore q ⟨ra, hs, hp, hi, some d⟩ ∧
    subRecency (⟨ra, hs, hp, hi, none⟩ : Faculty) = 0 ∧
    0 ≤ subRecency (⟨ra, hs, hp, hi, some d⟩ : Faculty) := by
  refine ⟨?_, rfl, subRecency_nonneg _⟩
  rw [ceFacultyScore_eq, ceFacultyScore_eq]
  have h1 : 0 ≤ subRecency (⟨ra, hs, hp, hi, some d⟩ : Faculty) :=
    subRecency_nonneg _
  have h2 : subRecency (⟨ra, hs, hp, hi, none⟩ : Faculty) = 0 := rfl
  have h3 : subAreas (lowerChars q) ⟨ra, hs, hp, hi, none⟩ =
      subAreas (lowerChars q) ⟨ra, hs, hp, hi, some d⟩ := rfl
  have h4 : subStatus (⟨ra, hs, hp, hi, none⟩ : Faculty) =
      subStatus (⟨ra, hs, hp, hi, some d⟩ : Faculty) := rfl
  have h5 : subProb (⟨ra, hs, hp, hi, none⟩ : Faculty) =
      subProb (⟨ra, hs, hp, hi, some d⟩ : Faculty) := rfl
  rw [h2, h3, h4, h5]
  linarith

/-- Claim C5: the scored output list is sorted by match score in descending
order, and the sort is stable — for every score value, the subsequence of
output entries carrying that score equals the corresponding subsequence of
the scored input, so equal-scored candidates keep their input order. -/
theorem c5_sorted_and_stable (q : List Char) (fl : List Faculty) :
    (scoreFacultyMatches q fl).Pairwise (fun a b => b.2 ≤ a.2) ∧
    ∀ c : ℚ, (scoreFacultyMatches q fl).filter (fun z => decide (z.2 = c)) =
      (fl.map (fun f => (f, ceFacultyScore q f))).filter
        (fun z => decide (z.2 = c)) :=
  ⟨sortByScore_pairwise _, fun c => sortByScore_filter c _⟩

theorem length_scoreFacultyMatches (q : List Char) (fl : List Faculty) :
    (scoreFacultyMatches q fl).length = fl.length := by
  unfold scoreFacultyMatches
  rw [length_sortByScore, List.length_map]

/-- Claim C2, counterexample: the classifier has no `mixed` label. On the
query "professor program" both keyword counts are 1 (tied and non-zero),
yet `_classify_query` returns `general_chat`, not `mixed`. -/
theorem c2_counterexample :
    0 < countHits facultyKeywords (lowerChars ("professor program".data)) ∧
    countHits facultyKeywords (lowerChars ("professor program".data)) =
      countHits programKeywords (lowerChars ("professor program".data)) ∧
    classifyQuery ("professor program".data) ≠ "mixed".data ∧
    classifyQuery ("professor program".data) = "general_chat".data := by
  refine ⟨by decide, by decide, by decide, by decide⟩

/-- Claim C2 as amended: the classifier knows only the two categories
`faculty_search` and `program_search`; the strictly higher keyword count
wins, and every tie — zero or non-zero — returns `general_chat` (there is
no `mixed` label). -/
theorem c2_amended_ties_resolve_to_general_chat (q : List Char) :
    (classifyQuery q = "faculty_search".data ↔
      countHits programKeywords (lowerChars q) <
        countHits facultyKeywords (lowerChars q)) ∧
    (classifyQuery q = "program_search".data ↔
      countHits facultyKeywords (lowerChars q) <
        countHits programKeywords (lowerChars q)) ∧
    (classifyQuery q = "general_chat".data ↔
      countHits facultyKeywords (lowerChars q) =
        countHits programKeywords (lowerChars q)) := by
  simp only [classifyQuery]
  split_ifs with h1 h2
  · exact ⟨iff_of_true rfl h1, iff_of_false (by decide) (by omega),
      iff_of_false (by decide) (by omega)⟩
  · exact ⟨iff_of_false (by decide) (by omega), iff_of_true rfl h2,
      iff_of_false (by decide) (by omega)⟩
  · exact ⟨iff_of_false (by decide) (by omega), iff_of_false (by decide) (by omega),
      iff_of_true rfl (by omega)⟩

/-- Claim C6, counterexample: the search operation exposed to callers does
truncate: with 11 retrieved candidates, `search_faculty` surfaces only 10
matches — the `[:10]` is hard-coded inside the pipeline, not a caller
parameter. -/
theorem c6_counterexample :
    (searchFaculty [] (.ok (List.replicate 11
        (⟨[], none, none, none, none⟩ : Faculty)))).found_matches.length = 10 ∧
    (List.replicate 11 (⟨[], none, none, none, none⟩ : Faculty)).length = 11 := by
  constructor
  · show ((scoreFacultyMatches [] (List.replicate 11 _)).take 10).length = 10
    rw [List.length_take, length_scoreFacultyMatches, List.length_replicate]
    decide
  · rfl

/-- Claim C6 as amended: the internal scorer `_score_faculty_matches` does
return the full scored list (length preserved), but the caller-facing
`search_faculty` truncates it to the first 10 entries with a hard-coded
constant, so callers receive `min 10 n` matches, not a caller-chosen K. -/
theorem c6_amended_hardcoded_topk (q : List Char) (fl : List Faculty) :
    (scoreFacultyMatches q fl).length = fl.length ∧
    (searchFaculty q (.ok fl)).found_matches.length = min 10 fl.length := by
  refine ⟨length_scoreFacultyMatches q fl, ?_⟩
  show ((scoreFacultyMatches q fl).take 10).length = _
  rw [List.length_take, length_scoreFacultyMatches]

/-- Claim C7: when candidate retrieval fails (the `try` body raises), the
search operation absorbs the failure and returns a normal payload with an
empty matches list, zero total and empty sources, rather than propagating
the exception. -/
theorem c7_retrieval_failure_absorbed (q : List Char) (e : Unit) :
    (searchFaculty q (.error e)).found_matches = [] ∧
    (searchFaculty q (.error e)).total_found = 0 ∧
    (searchFaculty q (.error e)).sources = [] :=
  ⟨rfl, rfl, rfl⟩

/-- Claim C8, counterexample: caller-context research interests are appended
verbatim to the criteria's area list — un-normalized free text enters the
structure and duplicates are not removed. With query
"machine learning professors" and context interests
["machine learning", "basket weaving"], the resulting area list is
["machine learning", "machine learning", "basket weaving"]: it has a
duplicate, and "basket weaving" is not in the controlled vocabulary. -/
theorem c8_counterexample :
    ¬ (extractSearchCriteria ("machine learning professors".data)
        ["machine learning".data, "basket weaving".data]).research_areas.Nodup ∧
    "basket weaving".data ∈ (extractSearchCriteria
        ("machine learning professors".data)
        ["machine learning".data, "basket weaving".data]).research_areas ∧
    "basket weaving".data ∉ researchKeywordTable.map Prod.fst := by
  refine ⟨by decide, by decide, by decide⟩

/-- Claim C8 as amended: every research-area value in the extracted criteria
is either a key of the controlled keyword vocabulary (when derived from the
query) or a verbatim caller-context interest — context interests are
appended unnormalized and undeduplicated, not unioned from the
vocabulary. -/
theorem c8_amended_vocab_or_context (q : List Char) (ctx : List (List Char))
    (a : List Char) (ha : a ∈ (extractSearchCriteria q ctx).research_areas) :
    a ∈ researchKeywordTable.map Prod.fst ∨ a ∈ ctx := by
  unfold extractSearchCriteria at ha
  simp only at ha
  rcases List.mem_append.mp ha with h | h
  · obtain ⟨x, hx, rfl⟩ := List.mem_map.mp h
    exact Or.inl (List.mem_map_of_mem _ (List.mem_of_mem_filter hx))
  · exact Or.inr h

/-- Witness for the amended C8 at a concrete query-derived area. -/
theorem c8_amended_vocab_or_context_witness :
    "machine learning".data ∈
      (extractSearchCriteria ("ml".data) []).research_areas ∧
    ("machine learning".data ∈ researchKeywordTable.map Prod.fst ∨
      "machine learning".data ∈ ([] : List (List Char))) :=
  ⟨by decide, c8_amended_vocab_or_context ("ml".data) [] _ (by decide)⟩

/-- Claim C9, counterexample: in `cost_effective_agents` the hiring criterion
is set for any of hiring/recruiting/accepting, but `_extract_keywords` in
agents.py computes its `hiring_focus` flag as `'hiring' in message_lower`
only: on the query "recruiting phd students" (which contains "recruiting")
the flag is false, contradicting the claimed iff. -/
theorem c9_counterexample :
    containsSub ("recruiting".data)
      (lowerChars ("recruiting phd students".data)) = true ∧
    extractKeywordsHiringFocus ("recruiting phd students".data) = false ∧
    (extractSearchCriteria ("recruiting phd students".data) []).hiring_status =
      some ("hiring".data) := by
  refine ⟨by decide, by decide, by decide⟩

/-- Claim C9 as amended: the cost-effective extractor sets its hiring
criterion iff the lowercased query contains one of the substrings
hiring/recruiting/accepting, while the agents.py fallback extractor's
hiring_focus flag holds iff the lowercased query contains "hiring" alone. -/
theorem c9_amended_two_hiring_flags (q : List Char) (ctx : List (List Char)) :
    ((extractSearchCriteria q ctx).hiring_status = some ("hiring".data) ↔
      (containsSub ("hiring".data) (lowerChars q) = true ∨
       containsSub ("recruiting".data) (lowerChars q) = true ∨
       containsSub ("accepting".data) (lowerChars q) = true)) ∧
    extractKeywordsHiringFocus q = containsSub ("hiring".data) (lowerChars q) := by
  refine ⟨?_, rfl⟩
  unfold extractSearchCriteria
  simp only
  split_ifs with h
  · simp only [List.any_cons, List.any_nil, Bool.or_eq_true] at h
    exact iff_of_true rfl (by tauto)
  · simp only [List.any_cons, List.any_nil, Bool.or_eq_true] at h
    exact iff_of_false (by simp) (by tauto)

/-- Claim C10: the confidence scores placed in response payloads stay inside
[0.0, 0.95] and are never 1.0: `ChatAgent._calculate_confidence` returns
`min(0.95, s)` for a nonnegative sum `s`, and
`ChatOrchestrator.process_query` only ever assigns 0.0, 0.3, 0.6 or 0.8. -/
theorem c10_confidence_bounds (fm pm ri : Bool) (q : List Char)
    (has_matches errored : Bool) :
    (0 ≤ calcConfidence fm pm ri ∧ calcConfidence fm pm ri ≤ 0.95 ∧
      calcConfidence fm pm ri ≠ 1) ∧
    (processQueryConfidence q has_matches errored = 0 ∨
     processQueryConfidence q has_matches errored = 0.3 ∨
     processQueryConfidence q has_matches errored = 0.6 ∨
     processQueryConfidence q has_matches errored = 0.8) ∧
    (0 ≤ processQueryConfidence q has_matches errored ∧
      processQueryConfidence q has_matches errored ≤ 0.95 ∧
      processQueryConfidence q has_matches errored ≠ 1) := by
  refine ⟨?_, ?_, ?_⟩
  · rcases fm <;> rcases pm <;> rcases ri <;> norm_num [calcConfidence]
  · unfold processQueryConfidence
    split_ifs <;> norm_num
  · unfold processQueryConfidence
    split_ifs <;> norm_num
